import Mathlib

/-!
A shallow embedding of merged_blocks_writer.go from EOS-Nation/sf-tools.

The Go component accumulates a stream of blocks into 100-block bundles and
writes each bundle to a durable store.  State and control flow are translated
function by function:

* Block keeps the two fields the writer reads, Number and Id.
* mergedBlocksWriter mirrors the Go struct.  The injected store plus the
  serializer factory are modelled at bundle granularity: given the object name
  and the block sequence that the serializer would stream through the pipe,
  the store returns an error message or none.  A serialization or factory
  failure surfaces through the store outcome, exactly as the pipe propagates
  CloseWithError into WriteObject.
* processBlock returns the call result, the post state, the store writes
  performed during the call, and the duplicate reports logged by the two
  diagnostic scans (the scans only log, so their reports are surfaced as
  data).
* uint64 arithmetic is Nat with an explicit modulus at the places where the
  Go code could wrap.
-/

set_option maxRecDepth 8000

/-- 2 to the 64, the modulus of Go uint64 arithmetic. -/
def U64 : Nat := 18446744073709551616

/-- The two fields of a bstream.Block that the writer reads. -/
structure Block where
  number : Nat
  id : String
deriving DecidableEq

/-- Structured error outcomes of ProcessBlock and writeBundle.  In Go these
are formatted error values; eof models the io.EOF sentinel returned at the
stop block, which callers treat as clean stream completion, not failure. -/
inductive PBErr where
  | tweakError : String → PBErr
  | notBoundary : Nat → PBErr
  | noBlocks : PBErr
  | sizeMismatch : Nat → Nat → PBErr
  | storeError : String → PBErr
  | eof : PBErr
deriving DecidableEq

/-- The mergedBlocksWriter struct.  firstStreamable models the package global
bstream.GetProtocolFirstStreamableBlock (external configuration).  The store
field subsumes dstore.Store together with the block writer factory, at
bundle granularity. -/
structure mergedBlocksWriter where
  store : String → List Block → Option String
  lowBlockNum : Nat
  stopBlockNum : Nat
  blocks : List Block
  checkBundleSize : Bool
  tweakBlock : Option (Block → Except String Block)
  firstStreamable : Nat

/-- lowBoundary: i - (i % 100). -/
def lowBoundary (i : Nat) : Nat := i - (i % 100)

/-- filename: the ten digit zero padded decimal representation of num. -/
def filename (num : Nat) : String :=
  let s := Nat.repr num
  String.mk (List.replicate (10 - s.length) '0') ++ s

/-- writeBundle: fails on an empty buffer before contacting the store;
otherwise performs one store write of the whole buffer under
filename lowBlockNum and, regardless of the store outcome, advances
lowBlockNum by 100 (uint64 wrap) and clears the buffer.  The third component
records the store writes performed. -/
def writeBundle (w : mergedBlocksWriter) :
    Option PBErr × mergedBlocksWriter × List (String × List Block) :=
  let file := filename w.lowBlockNum
  if w.blocks = [] then
    (some PBErr.noBlocks, w, [])
  else
    let res := w.store file w.blocks
    let w1 := { w with lowBlockNum := (w.lowBlockNum + 100) % U64, blocks := [] }
    match res with
    | some e => (some (PBErr.storeError e), w1, [(file, w.blocks)])
    | none => (none, w1, [(file, w.blocks)])

/-- Go map lookup for the association lists used by the duplicate scans. -/
def lookupKey {K : Type} [DecidableEq K] (k : K) : List (K × Block) → Option Block
  | [] => none
  | (k1, b) :: rest => if k1 = k then some b else lookupKey k rest

/-- The shared loop of checkDuplicateNumbers and checkDuplicateIds: walk the
buffer keeping the first block seen for each key; every later block with an
already seen key yields one logged report pairing it with that first block. -/
def dupScan {K : Type} [DecidableEq K] (key : Block → K) :
    List Block → List (K × Block) → List (Block × Block)
  | [], _ => []
  | b :: rest, seen =>
    match lookupKey (key b) seen with
    | some first => (b, first) :: dupScan key rest seen
    | none => dupScan key rest ((key b, b) :: seen)

/-- checkDuplicateNumbers: the duplicate block number diagnostic scan. -/
def checkDuplicateNumbers (blocks : List Block) : List (Block × Block) :=
  dupScan (fun b => b.number) blocks []

/-- checkDuplicateIds: the duplicate block id diagnostic scan. -/
def checkDuplicateIds (blocks : List Block) : List (Block × Block) :=
  dupScan (fun b => b.id) blocks []

/-- Everything one ProcessBlock call produces: the returned error (none for
nil), the post state, the store writes performed, and the reports logged by
the two duplicate scans when the size check fails. -/
structure PBResult where
  res : Option PBErr
  state : mergedBlocksWriter
  writes : List (String × List Block)
  dupNumReports : List (Block × Block)
  dupIdReports : List (Block × Block)

/-- ProcessBlock lines 53-68: append the block; when it is the last block of
the current bundle either raise the size mismatch (running both duplicate
scans first) or flush. -/
def processAppend (w : mergedBlocksWriter) (blk : Block)
    (ws : List (String × List Block)) : PBResult :=
  let w1 := { w with blocks := w.blocks ++ [blk] }
  if blk.number = (w1.lowBlockNum + 99) % U64 then
    if w1.checkBundleSize ∧ w1.blocks.length ≠ 100 ∧ 100 ≤ blk.number then
      ⟨some (PBErr.sizeMismatch w1.blocks.length w1.lowBlockNum), w1, ws,
        checkDuplicateNumbers w1.blocks, checkDuplicateIds w1.blocks⟩
    else
      let t := writeBundle w1
      ⟨t.1, t.2.1, ws ++ t.2.2, [], []⟩
  else ⟨none, w1, ws, [], []⟩

/-- ProcessBlock lines 49-51: the stop check, returning io.EOF at or past the
stop block without appending. -/
def processStopCheck (w : mergedBlocksWriter) (blk : Block)
    (ws : List (String × List Block)) : PBResult :=
  if 0 < w.stopBlockNum ∧ w.stopBlockNum ≤ blk.number then
    ⟨some PBErr.eof, w, ws, [], []⟩
  else processAppend w blk ws

/-- ProcessBlock lines 42-47: flush the current buffer when the incoming
block lies beyond the current bundle. -/
def processOverflow (w : mergedBlocksWriter) (blk : Block) : PBResult :=
  if (w.lowBlockNum + 99) % U64 < blk.number then
    let t := writeBundle w
    match t.1 with
    | some e => ⟨some e, t.2.1, t.2.2, [], []⟩
    | none => processStopCheck t.2.1 blk t.2.2
  else processStopCheck w blk []

/-- ProcessBlock lines 34-40: the initial boundary check for a first block
past number 99. -/
def processBoundary (w : mergedBlocksWriter) (blk : Block) : PBResult :=
  if w.lowBlockNum = 0 ∧ 99 < blk.number then
    if blk.number % 100 ≠ 0 ∧ blk.number ≠ w.firstStreamable then
      ⟨some (PBErr.notBoundary blk.number), w, [], [], []⟩
    else processOverflow { w with lowBlockNum := lowBoundary blk.number } blk
  else processOverflow w blk

/-- ProcessBlock lines 26-32: the optional transform hook. -/
def applyTweak (w : mergedBlocksWriter) (blk : Block) : Except String Block :=
  match w.tweakBlock with
  | none => Except.ok blk
  | some f => f blk

/-- ProcessBlock.  The Go method also receives an unused obj argument, which
is dropped here. -/
def processBlock (w : mergedBlocksWriter) (blk0 : Block) : PBResult :=
  match applyTweak w blk0 with
  | Except.error e => ⟨some (PBErr.tweakError e), w, [], [], []⟩
  | Except.ok blk => processBoundary w blk

/-- Driving the writer over a list of blocks, one ProcessBlock call each,
threading the state and collecting every call result and store write. -/
def runTrace (w : mergedBlocksWriter) :
    List Block → List (Option PBErr) × mergedBlocksWriter × List (String × List Block)
  | [] => ([], w, [])
  | b :: rest =>
    let r := processBlock w b
    let t := runTrace r.state rest
    (r.res :: t.1, t.2.1, r.writes ++ t.2.2)

/-- A store that accepts every write. -/
def okStore : String → List Block → Option String := fun _ _ => none

/-- A fresh writer with the given store, stop block, size check flag and
first streamable block; no transform hook, empty buffer, boundary zero. -/
def mkWriter (store : String → List Block → Option String) (stopAt : Nat)
    (check : Bool) (first : Nat) : mergedBlocksWriter :=
  { store := store, lowBlockNum := 0, stopBlockNum := stopAt, blocks := [],
    checkBundleSize := check, tweakBlock := none, firstStreamable := first }

/-- n consecutive blocks numbered lo, lo+1, ..., with distinct decimal ids. -/
def blks (lo n : Nat) : List Block :=
  (List.range n).map (fun i => ⟨lo + i, Nat.repr (lo + i)⟩)

/-- writeBundle never produces the boundary violation error. -/
theorem writeBundle_res_ne_notBoundary (w : mergedBlocksWriter) (m : Nat) :
    (writeBundle w).1 ≠ some (PBErr.notBoundary m) := by
  unfold writeBundle
  split
  · simp
  · cases h : w.store (filename w.lowBlockNum) w.blocks <;> simp [h]

/-- The append and completion step never produces the boundary violation
error. -/
theorem processAppend_res_ne_notBoundary (w : mergedBlocksWriter) (blk : Block)
    (ws : List (String × List Block)) (m : Nat) :
    (processAppend w blk ws).res ≠ some (PBErr.notBoundary m) := by
  simp only [processAppend]
  split
  · split
    · simp
    · exact writeBundle_res_ne_notBoundary _ m
  · simp

/-- The stop check step never produces the boundary violation error. -/
theorem processStopCheck_res_ne_notBoundary (w : mergedBlocksWriter) (blk : Block)
    (ws : List (String × List Block)) (m : Nat) :
    (processStopCheck w blk ws).res ≠ some (PBErr.notBoundary m) := by
  simp only [processStopCheck]
  split
  · simp
  · exact processAppend_res_ne_notBoundary _ _ _ m

/-- The overflow flush step never produces the boundary violation error. -/
theorem processOverflow_res_ne_notBoundary (w : mergedBlocksWriter) (blk : Block)
    (m : Nat) : (processOverflow w blk).res ≠ some (PBErr.notBoundary m) := by
  simp only [processOverflow]
  split
  · cases hwb : (writeBundle w).1 with
    | none => exact processStopCheck_res_ne_notBoundary _ _ _ m
    | some e =>
      intro hc
      refine writeBundle_res_ne_notBoundary w m ?_
      rw [hwb]
      exact hc
  · exact processStopCheck_res_ne_notBoundary _ _ _ m

/-- C3 (amended): for every invocation of writeBundle with a NON-empty
buffer, whether the store write succeeds or fails, the post state has
lowBlockNum advanced by exactly 100 and the buffer empty.  (The empty-buffer
invocation refutes the original claim: see the counterexample.) -/
theorem writeBundle_advances_boundary_and_clears (w : mergedBlocksWriter)
    (hne : w.blocks ≠ []) (hlt : w.lowBlockNum + 100 < U64) :
    (writeBundle w).2.1.lowBlockNum = w.lowBlockNum + 100 ∧
      (writeBundle w).2.1.blocks = [] := by
  simp only [writeBundle, if_neg hne]
  cases h : w.store (filename w.lowBlockNum) w.blocks <;>
    simp [h, Nat.mod_eq_of_lt hlt]

/-- C3 witness: a concrete non-empty three-block buffer at boundary 0 is
flushed with the boundary advanced to 100 and the buffer cleared. -/
theorem writeBundle_advances_boundary_and_clears_witness :
    ({ mkWriter okStore 0 false 2 with blocks := blks 0 3 }).blocks ≠ [] ∧
      ((writeBundle { mkWriter okStore 0 false 2 with blocks := blks 0 3 }).2.1.lowBlockNum =
          ({ mkWriter okStore 0 false 2 with blocks := blks 0 3 }).lowBlockNum + 100 ∧
        (writeBundle { mkWriter okStore 0 false 2 with blocks := blks 0 3 }).2.1.blocks = []) :=
  ⟨by decide,
    writeBundle_advances_boundary_and_clears _ (by decide) (by decide)⟩

/-- C3 counterexample: invoking writeBundle on an empty buffer returns the
no-blocks failure without advancing lowBlockNum, so it is not the case that
every writeBundle invocation advances the boundary by 100. -/
theorem writeBundle_empty_no_advance_counterexample :
    (writeBundle (mkWriter okStore 0 false 2)).1 = some PBErr.noBlocks ∧
      ¬ ((writeBundle (mkWriter okStore 0 false 2)).2.1.lowBlockNum =
          (mkWriter okStore 0 false 2).lowBlockNum + 100) := by
  decide

/-- C9: writeBundle invoked with an empty buffer returns the no-blocks
failure before contacting the store (no store write is recorded) and leaves
the state unchanged; correspondingly, a ProcessBlock call whose overflow
flush triggers with nothing accumulated returns that failure with
lowBlockNum not advanced and the (empty) buffer not touched. -/
theorem writeBundle_empty_noBlocks (w : mergedBlocksWriter) (he : w.blocks = []) :
    writeBundle w = (some PBErr.noBlocks, w, []) ∧
      (∀ blk : Block, w.tweakBlock = none → w.lowBlockNum ≠ 0 →
        w.lowBlockNum + 99 < U64 → w.lowBlockNum + 99 < blk.number →
        processBlock w blk = ⟨some PBErr.noBlocks, w, [], [], []⟩) := by
  have hwb : writeBundle w = (some PBErr.noBlocks, w, []) := by
    simp only [writeBundle, if_pos he]
  refine ⟨hwb, fun blk htw hne0 hlt hgt => ?_⟩
  have hb : applyTweak w blk = Except.ok blk := by
    simp only [applyTweak, htw]
  simp only [processBlock, hb]
  simp only [processBoundary, if_neg (by simp [hne0] : ¬ (w.lowBlockNum = 0 ∧ 99 < blk.number))]
  simp only [processOverflow, Nat.mod_eq_of_lt hlt, if_pos hgt, hwb]

/-- A writer that has just flushed the bundle at boundary 0: boundary 100,
empty buffer.  Feeding it a block from a later bundle reaches the overflow
flush with nothing accumulated. -/
def wEmptyAt100 : mergedBlocksWriter :=
  { mkWriter okStore 0 false 2 with lowBlockNum := 100 }

/-- C9 witness: at boundary 100 with an empty buffer, writeBundle fails with
the no-blocks error changing nothing, and ProcessBlock on block 250 (which
triggers the overflow flush) surfaces that failure with the state intact. -/
theorem writeBundle_empty_noBlocks_witness :
    wEmptyAt100.blocks = [] ∧
      writeBundle wEmptyAt100 = (some PBErr.noBlocks, wEmptyAt100, []) ∧
      processBlock wEmptyAt100 ⟨250, "250"⟩ =
        ⟨some PBErr.noBlocks, wEmptyAt100, [], [], []⟩ :=
  ⟨rfl, (writeBundle_empty_noBlocks wEmptyAt100 rfl).1,
    (writeBundle_empty_noBlocks wEmptyAt100 rfl).2 ⟨250, "250"⟩ rfl (by decide)
      (by decide) (by decide)⟩

/-- C6: with no boundary yet established (lowBlockNum zero) and an incoming
block numbered above 99, ProcessBlock fails with the boundary violation
error exactly when the block number is neither a multiple of 100 nor the
first streamable block; that failure performs no flush and no state
mutation; and when the check passes, processing continues with lowBlockNum
set to n - (n % 100).  In particular a first block numbered 150, with 150
not the first streamable block, fails with no flush (see the witness). -/
theorem initial_boundary_violation_iff (w : mergedBlocksWriter) (blk : Block)
    (htw : w.tweakBlock = none) (hlow : w.lowBlockNum = 0) (hgt : 99 < blk.number) :
    ((processBlock w blk).res = some (PBErr.notBoundary blk.number) ↔
      (blk.number % 100 ≠ 0 ∧ blk.number ≠ w.firstStreamable)) ∧
    ((blk.number % 100 ≠ 0 ∧ blk.number ≠ w.firstStreamable) →
      processBlock w blk = ⟨some (PBErr.notBoundary blk.number), w, [], [], []⟩) ∧
    (¬ (blk.number % 100 ≠ 0 ∧ blk.number ≠ w.firstStreamable) →
      processBlock w blk =
        processOverflow { w with lowBlockNum := blk.number - blk.number % 100 } blk) := by
  have hb : applyTweak w blk = Except.ok blk := by
    simp only [applyTweak, htw]
  have hpb : processBlock w blk = processBoundary w blk := by
    simp only [processBlock, hb]
  by_cases hviol : blk.number % 100 ≠ 0 ∧ blk.number ≠ w.firstStreamable
  · have heq : processBlock w blk = ⟨some (PBErr.notBoundary blk.number), w, [], [], []⟩ := by
      rw [hpb]
      simp only [processBoundary, if_pos (And.intro hlow hgt), if_pos hviol]
    refine ⟨iff_of_true (by rw [heq]) hviol, fun _ => heq, fun hc => absurd hviol hc⟩
  · have heq : processBlock w blk =
        processOverflow { w with lowBlockNum := blk.number - blk.number % 100 } blk := by
      rw [hpb]
      simp only [processBoundary, if_pos (And.intro hlow hgt), if_neg hviol]
      rfl
    refine ⟨?_, fun hv => absurd hv hviol, fun _ => heq⟩
    rw [heq]
    exact iff_of_false (processOverflow_res_ne_notBoundary _ _ _) hviol

/-- C6 witness: a fresh writer whose first streamable block is 2, fed a
first block numbered 150, fails with the boundary violation error, with no
flush and no state change. -/
theorem initial_boundary_violation_iff_witness :
    ((150 : Nat) % 100 ≠ 0 ∧ (150 : Nat) ≠ (mkWriter okStore 0 false 2).firstStreamable) ∧
      processBlock (mkWriter okStore 0 false 2) ⟨150, "150"⟩ =
        ⟨some (PBErr.notBoundary 150), mkWriter okStore 0 false 2, [], [], []⟩ :=
  ⟨by decide,
    (initial_boundary_violation_iff (mkWriter okStore 0 false 2) ⟨150, "150"⟩ rfl rfl
        (by decide)).2.1 (by decide)⟩

/-- writeBundle never produces the size mismatch error. -/
theorem writeBundle_res_ne_sizeMismatch (w : mergedBlocksWriter) (a b : Nat) :
    (writeBundle w).1 ≠ some (PBErr.sizeMismatch a b) := by
  simp only [writeBundle]
  split
  · simp
  · cases h : w.store (filename w.lowBlockNum) w.blocks <;> simp [h]

/-- C5: when the appended block closes the bundle (its number equals
lowBlockNum + 99, the stop limit not intervening), ProcessBlock raises the
count mismatch reporting the post-append buffer length and the low boundary
exactly when size enforcement is on, the post-append length is not 100 and
the bundle is not the very first one (block number at least 100); when it
raises, no flush occurs, the state keeps the appended buffer with the
boundary unchanged, and both duplicate scans were run over it first, their
reports logged. -/
theorem completion_size_mismatch_iff (w : mergedBlocksWriter) (blk : Block)
    (htw : w.tweakBlock = none) (hlt : w.lowBlockNum + 99 < U64)
    (hnum : blk.number = w.lowBlockNum + 99)
    (hstop : w.stopBlockNum = 0 ∨ blk.number < w.stopBlockNum) :
    ((processBlock w blk).res =
        some (PBErr.sizeMismatch (w.blocks.length + 1) w.lowBlockNum) ↔
      (w.checkBundleSize = true ∧ w.blocks.length + 1 ≠ 100 ∧ 100 ≤ blk.number)) ∧
    ((w.checkBundleSize = true ∧ w.blocks.length + 1 ≠ 100 ∧ 100 ≤ blk.number) →
      (processBlock w blk).writes = [] ∧
        (processBlock w blk).state.blocks = w.blocks ++ [blk] ∧
        (processBlock w blk).state.lowBlockNum = w.lowBlockNum ∧
        (processBlock w blk).dupNumReports = checkDuplicateNumbers (w.blocks ++ [blk]) ∧
        (processBlock w blk).dupIdReports = checkDuplicateIds (w.blocks ++ [blk])) := by
  have hb : applyTweak w blk = Except.ok blk := by simp only [applyTweak, htw]
  have hnb : ¬ (w.lowBlockNum = 0 ∧ 99 < blk.number) := by
    rintro ⟨h0, hg⟩
    omega
  have hstop2 : ¬ (0 < w.stopBlockNum ∧ w.stopBlockNum ≤ blk.number) := by
    rcases hstop with h | h <;> omega
  have hred : processBlock w blk = processAppend w blk [] := by
    simp only [processBlock, hb, processBoundary, if_neg hnb, processOverflow,
      Nat.mod_eq_of_lt hlt, if_neg (by omega : ¬ (w.lowBlockNum + 99 < blk.number)),
      processStopCheck, if_neg hstop2]
  rw [hred]
  simp only [processAppend, Nat.mod_eq_of_lt hlt, if_pos hnum, List.length_append,
    List.length_singleton]
  by_cases hc : w.checkBundleSize = true ∧ w.blocks.length + 1 ≠ 100 ∧ 100 ≤ blk.number
  · rw [if_pos hc]
    exact ⟨iff_of_true rfl hc, fun _ => ⟨rfl, rfl, rfl, rfl, rfl⟩⟩
  · rw [if_neg hc]
    exact ⟨iff_of_false (writeBundle_res_ne_sizeMismatch _ _ _) hc, fun h => absurd h hc⟩

/-- A writer holding a 56-block buffer for the bundle starting at 200, with
size enforcement enabled. -/
def w57 : mergedBlocksWriter :=
  { mkWriter okStore 0 true 2 with lowBlockNum := 200, blocks := blks 200 56 }

/-- C5 witness: appending block 299 to the 56-block buffer of bundle
[200, 299] with enforcement on raises the count mismatch with count 57 and
boundary 200. -/
theorem completion_size_mismatch_iff_witness :
    ((299 : Nat) = w57.lowBlockNum + 99) ∧
      (processBlock w57 ⟨299, "299"⟩).res = some (PBErr.sizeMismatch 57 200) :=
  ⟨by decide,
    (completion_size_mismatch_iff w57 ⟨299, "299"⟩ rfl (by decide) (by decide)
        (Or.inl rfl)).1.mpr (by decide)⟩

/-- Once a key is stored in the seen map, every later block with that key
reports one collision against the stored first block. -/
theorem dupScan_filter_found {K : Type} [DecidableEq K] (key : Block → K) :
    ∀ (xs : List Block) (seen : List (K × Block)) (n : K) (f : Block),
      lookupKey n seen = some f →
      (dupScan key xs seen).filter (fun p => decide (key p.1 = n)) =
        (xs.filter (fun b => decide (key b = n))).map (fun b => (b, f)) := by
  intro xs
  induction xs with
  | nil =>
    intro seen n f _
    rfl
  | cons b rest ih =>
    intro seen n f hf
    by_cases hbn : key b = n
    · have hlb : lookupKey (key b) seen = some f := by rw [hbn]; exact hf
      simp only [dupScan, hlb]
      simp [List.filter_cons, hbn, ih seen n f hf]
    · cases hlb : lookupKey (key b) seen with
      | some f1 =>
        simp only [dupScan, hlb, List.filter_cons]
        simp [hbn, ih seen n f hf]
      | none =>
        have hf2 : lookupKey n ((key b, b) :: seen) = some f := by
          simp only [lookupKey, if_neg hbn]
          exact hf
        simp only [dupScan, hlb, List.filter_cons]
        simp [hbn, ih ((key b, b) :: seen) n f hf2]

/-- With a key not yet seen, the scan reports one collision per occurrence
of the key after the first, each paired with the first occurrence. -/
theorem dupScan_filter_new {K : Type} [DecidableEq K] (key : Block → K) :
    ∀ (xs : List Block) (seen : List (K × Block)) (n : K) (b1 : Block)
      (ds : List Block),
      lookupKey n seen = none →
      xs.filter (fun b => decide (key b = n)) = b1 :: ds →
      (dupScan key xs seen).filter (fun p => decide (key p.1 = n)) =
        ds.map (fun b => (b, b1)) := by
  intro xs
  induction xs with
  | nil =>
    intro seen n b1 ds _ hfil
    exact absurd hfil (by simp)
  | cons b rest ih =>
    intro seen n b1 ds hn hfil
    by_cases hbn : key b = n
    · have hlb : lookupKey (key b) seen = none := by rw [hbn]; exact hn
      have hfc : b :: rest.filter (fun x => decide (key x = n)) = b1 :: ds := by
        rw [← hfil]
        simp [List.filter_cons, hbn]
      have hb1 : b1 = b := by
        injection hfc with h1 _
        exact h1.symm
      have hds : ds = rest.filter (fun x => decide (key x = n)) := by
        injection hfc with _ h2
        exact h2.symm
      have hlook : lookupKey n ((key b, b) :: seen) = some b := by
        simp only [lookupKey, if_pos hbn]
      simp only [dupScan, hlb]
      rw [dupScan_filter_found key rest ((key b, b) :: seen) n b hlook, hb1, hds]
    · have hfr : rest.filter (fun x => decide (key x = n)) = b1 :: ds := by
        rw [← hfil]
        simp [List.filter_cons, hbn]
      cases hlb : lookupKey (key b) seen with
      | some f1 =>
        simp only [dupScan, hlb, List.filter_cons]
        simp only [hbn, decide_eq_true_eq, if_neg]
        simp [hbn]
        exact ih seen n b1 ds hn hfr
      | none =>
        have hn2 : lookupKey n ((key b, b) :: seen) = none := by
          simp only [lookupKey, if_neg hbn]
          exact hn
        simp only [dupScan, hlb]
        exact ih ((key b, b) :: seen) n b1 ds hn2 hfr

/-- C8: in any buffer whose blocks with a given number are exactly two, the
duplicate number scan logs exactly one collision, pairing the second
occurrence with the first; likewise the duplicate id scan for a shared id.
Both scans are pure diagnostics over the buffer: their codomain is a report
list only, so they mutate nothing and have no failure outcome, whatever the
buffer content. -/
theorem duplicate_scan_single_collision :
    (∀ (bs : List Block) (n : Nat) (b1 b2 : Block),
        bs.filter (fun b => decide (b.number = n)) = [b1, b2] →
        (checkDuplicateNumbers bs).filter (fun p => decide (p.1.number = n)) =
          [(b2, b1)]) ∧
    (∀ (bs : List Block) (s : String) (b1 b2 : Block),
        bs.filter (fun b => decide (b.id = s)) = [b1, b2] →
        (checkDuplicateIds bs).filter (fun p => decide (p.1.id = s)) = [(b2, b1)]) := by
  constructor
  · intro bs n b1 b2 hf
    have h := dupScan_filter_new (fun b => b.number) bs [] n b1 [b2] rfl hf
    simpa using h
  · intro bs s b1 b2 hf
    have h := dupScan_filter_new (fun b => b.id) bs [] s b1 [b2] rfl hf
    simpa using h

/-- C8 witness: a buffer of two blocks sharing number 7 yields exactly the
single collision pairing the second with the first; a buffer of two blocks
sharing an id likewise. -/
theorem duplicate_scan_single_collision_witness :
    (([⟨7, "a"⟩, ⟨7, "b"⟩] : List Block).filter (fun b => decide (b.number = 7)) =
        [⟨7, "a"⟩, ⟨7, "b"⟩] ∧
      (checkDuplicateNumbers [⟨7, "a"⟩, ⟨7, "b"⟩]).filter
          (fun p => decide (p.1.number = 7)) = [(⟨7, "b"⟩, ⟨7, "a"⟩)]) ∧
    (([⟨3, "x"⟩, ⟨4, "x"⟩] : List Block).filter (fun b => decide (b.id = "x")) =
        [⟨3, "x"⟩, ⟨4, "x"⟩] ∧
      (checkDuplicateIds [⟨3, "x"⟩, ⟨4, "x"⟩]).filter
          (fun p => decide (p.1.id = "x")) = [(⟨4, "x"⟩, ⟨3, "x"⟩)]) :=
  ⟨⟨by decide, duplicate_scan_single_collision.1 [⟨7, "a"⟩, ⟨7, "b"⟩] 7 ⟨7, "a"⟩ ⟨7, "b"⟩
      (by decide)⟩,
    ⟨by decide, duplicate_scan_single_collision.2 [⟨3, "x"⟩, ⟨4, "x"⟩] "x" ⟨3, "x"⟩ ⟨4, "x"⟩
      (by decide)⟩⟩

/-- The 51-block scenario refuting the original C2 claim: blocks 0..49 then
block 150, on a fresh writer whose first streamable block is 2. -/
def traceGapFromZero : List Block := blks 0 50 ++ [⟨150, "150"⟩]

/-- The amended C2 scenario: blocks 100..149 then block 250. -/
def traceGapFromHundred : List Block := blks 100 50 ++ [⟨250, "250"⟩]

/-- C2 counterexample: feeding a fresh accumulator blocks 0..49 and then
block 150 (first streamable block 2, size enforcement off, no stop limit)
does NOT flush: lowBlockNum is still 0, so block 150 hits the initial
boundary check and the call fails with the boundary violation error, no
store write happens, and the 50-block buffer is left in place. -/
theorem overflow_boundary_zero_counterexample :
    (runTrace (mkWriter okStore 0 false 2) traceGapFromZero).1.getLast? =
        some (some (PBErr.notBoundary 150)) ∧
      (runTrace (mkWriter okStore 0 false 2) traceGapFromZero).2.2 = [] ∧
      (runTrace (mkWriter okStore 0 false 2) traceGapFromZero).2.1.blocks =
        blks 0 50 := by
  decide

/-- C2 (amended): once a boundary is established (lowBlockNum nonzero), an
incoming block whose number exceeds lowBlockNum + 99 causes the non-empty
buffer to be flushed exactly once - one store write of the whole buffer
under the boundary filename - before the new block is considered, the call
then continuing on the flushed state; and the concrete scenario moved off
boundary zero: blocks 100..149 then 250 give exactly one flush of the
50-block buffer under the filename of boundary 100, every call succeeding,
with block 250 accumulating in the new bundle. -/
theorem overflow_single_flush_before_append :
    (∀ (w : mergedBlocksWriter) (blk : Block), w.tweakBlock = none →
      w.lowBlockNum ≠ 0 → w.lowBlockNum + 199 < U64 →
      w.lowBlockNum + 99 < blk.number → w.blocks ≠ [] →
      w.store (filename w.lowBlockNum) w.blocks = none →
      processBlock w blk =
        processStopCheck
          { w with lowBlockNum := (w.lowBlockNum + 100) % U64, blocks := [] } blk
          [(filename w.lowBlockNum, w.blocks)]) ∧
    ((runTrace (mkWriter okStore 0 false 2) traceGapFromHundred).1 =
        List.replicate 51 none ∧
      (runTrace (mkWriter okStore 0 false 2) traceGapFromHundred).2.2 =
        [(filename 100, blks 100 50)] ∧
      (runTrace (mkWriter okStore 0 false 2) traceGapFromHundred).2.1.blocks =
        [⟨250, "250"⟩] ∧
      (runTrace (mkWriter okStore 0 false 2) traceGapFromHundred).2.1.lowBlockNum =
        200) := by
  constructor
  · intro w blk htw hne0 hlt hgt hnb hst
    have hwb : writeBundle w =
        (none, { w with lowBlockNum := (w.lowBlockNum + 100) % U64, blocks := [] },
          [(filename w.lowBlockNum, w.blocks)]) := by
      simp only [writeBundle, if_neg hnb, hst]
    have hb : applyTweak w blk = Except.ok blk := by simp only [applyTweak, htw]
    simp only [processBlock, hb, processBoundary,
      if_neg (by simp [hne0] : ¬ (w.lowBlockNum = 0 ∧ 99 < blk.number)),
      processOverflow, Nat.mod_eq_of_lt (by omega : w.lowBlockNum + 99 < U64),
      if_pos hgt, hwb]
  · decide

/-- A writer mid-stream at boundary 100 holding blocks 100..149. -/
def wMid100 : mergedBlocksWriter :=
  { mkWriter okStore 0 false 2 with lowBlockNum := 100, blocks := blks 100 50 }

/-- C2 witness: on that writer, block 250 flushes the 50 accumulated blocks
once under the filename of boundary 100 before being considered itself. -/
theorem overflow_single_flush_before_append_witness :
    (wMid100.lowBlockNum + 99 < 250 ∧ wMid100.blocks ≠ []) ∧
      processBlock wMid100 ⟨250, "250"⟩ =
        processStopCheck
          { wMid100 with lowBlockNum := (wMid100.lowBlockNum + 100) % U64, blocks := [] }
          ⟨250, "250"⟩ [(filename wMid100.lowBlockNum, wMid100.blocks)] :=
  ⟨⟨by decide, by decide⟩,
    overflow_single_flush_before_append.1 wMid100 ⟨250, "250"⟩ rfl (by decide)
      (by decide) (by decide) (by decide) rfl⟩

/-- The amended C7 scenario: a stop limit of 300, blocks 200..299 and then
block 300. -/
def traceStop300 : List Block := blks 200 100 ++ [⟨300, "300"⟩]

/-- C7 counterexample: a fresh writer with stop limit 300 (first streamable
block 2) fed block 350, which is at or beyond the stop limit, does not
return the stream completion signal: the initial boundary check fails first
with the boundary violation error. -/
theorem stop_limit_not_eof_counterexample :
    0 < (mkWriter okStore 300 false 2).stopBlockNum ∧
      (mkWriter okStore 300 false 2).stopBlockNum ≤ 350 ∧
      (processBlock (mkWriter okStore 300 false 2) ⟨350, "350"⟩).res =
        some (PBErr.notBoundary 350) ∧
      (processBlock (mkWriter okStore 300 false 2) ⟨350, "350"⟩).res ≠
        some PBErr.eof := by
  decide

/-- C7 (amended): when a stop limit is configured and the incoming block is
at or beyond it, then PROVIDED the earlier per-block steps do not fail
first (no transform hook failure, the initial boundary check passes or does
not apply, and any overflow flush that is due succeeds), ProcessBlock
returns the io.EOF stream completion signal - distinct from every fatal
error - without appending the incoming block and without writing it to the
store.  The three reachable shapes of that proviso are each proved: no
overflow due and no boundary establishment (state untouched, nothing
written), boundary establishment on the first block (only lowBlockNum set),
and an overflow flush that succeeds first (the one store write holds
exactly the previously buffered blocks, the boundary advances, the buffer
empties, and the call still ends in io.EOF).  Last, the concrete scenario:
with stop limit 300, block 299 is appended normally (and flushed inside its
bundle), then block 300 yields clean completion, unappended. -/
theorem stop_limit_returns_eof :
    (∀ (w : mergedBlocksWriter) (blk : Block), w.tweakBlock = none →
      0 < w.stopBlockNum → w.stopBlockNum ≤ blk.number →
      w.lowBlockNum + 99 < U64 → ¬ (w.lowBlockNum = 0 ∧ 99 < blk.number) →
      blk.number ≤ w.lowBlockNum + 99 →
      processBlock w blk = ⟨some PBErr.eof, w, [], [], []⟩) ∧
    (∀ (w : mergedBlocksWriter) (blk : Block), w.tweakBlock = none →
      0 < w.stopBlockNum → w.stopBlockNum ≤ blk.number →
      blk.number + 99 < U64 → w.lowBlockNum = 0 → 99 < blk.number →
      ¬ (blk.number % 100 ≠ 0 ∧ blk.number ≠ w.firstStreamable) →
      processBlock w blk =
        ⟨some PBErr.eof, { w with lowBlockNum := lowBoundary blk.number }, [], [], []⟩) ∧
    (∀ (w : mergedBlocksWriter) (blk : Block), w.tweakBlock = none →
      0 < w.stopBlockNum → w.stopBlockNum ≤ blk.number →
      w.lowBlockNum ≠ 0 → w.lowBlockNum + 99 < U64 →
      w.lowBlockNum + 99 < blk.number → w.blocks ≠ [] →
      w.store (filename w.lowBlockNum) w.blocks = none →
      processBlock w blk =
        ⟨some PBErr.eof,
          { w with lowBlockNum := (w.lowBlockNum + 100) % U64, blocks := [] },
          [(filename w.lowBlockNum, w.blocks)], [], []⟩) ∧
    ((runTrace (mkWriter okStore 300 true 2) traceStop300).1 =
        List.replicate 100 none ++ [some PBErr.eof] ∧
      (runTrace (mkWriter okStore 300 true 2) traceStop300).2.2 =
        [(filename 200, blks 200 100)] ∧
      (runTrace (mkWriter okStore 300 true 2) traceStop300).2.1.blocks = [] ∧
      (runTrace (mkWriter okStore 300 true 2) traceStop300).2.1.lowBlockNum = 300) := by
  refine ⟨?_, ?_, ?_, by decide⟩
  · intro w blk htw hs0 hsn hlt hnb hno
    have hb : applyTweak w blk = Except.ok blk := by simp only [applyTweak, htw]
    simp only [processBlock, hb, processBoundary, if_neg hnb, processOverflow,
      Nat.mod_eq_of_lt hlt, if_neg (by omega : ¬ (w.lowBlockNum + 99 < blk.number)),
      processStopCheck, if_pos (And.intro hs0 hsn)]
  · intro w blk htw hs0 hsn hlt h0 hgt hpass
    have hb : applyTweak w blk = Except.ok blk := by simp only [applyTweak, htw]
    have hlb : lowBoundary blk.number + 99 < U64 := by
      have : lowBoundary blk.number ≤ blk.number := Nat.sub_le _ _
      omega
    have hnof : ¬ (lowBoundary blk.number + 99 < blk.number) := by
      have : blk.number % 100 ≤ 99 := by omega
      simp only [lowBoundary]
      omega
    simp only [processBlock, hb, processBoundary, if_pos (And.intro h0 hgt),
      if_neg hpass, processOverflow, Nat.mod_eq_of_lt hlb, if_neg hnof,
      processStopCheck, if_pos (And.intro hs0 hsn)]
  · intro w blk htw hs0 hsn hne0 hlt hgt hnb hst
    have hb : applyTweak w blk = Except.ok blk := by simp only [applyTweak, htw]
    have hwb : writeBundle w =
        (none, { w with lowBlockNum := (w.lowBlockNum + 100) % U64, blocks := [] },
          [(filename w.lowBlockNum, w.blocks)]) := by
      simp only [writeBundle, if_neg hnb, hst]
    simp only [processBlock, hb, processBoundary,
      if_neg (by simp [hne0] : ¬ (w.lowBlockNum = 0 ∧ 99 < blk.number)),
      processOverflow, Nat.mod_eq_of_lt hlt, if_pos hgt, hwb, processStopCheck,
      if_pos (And.intro hs0 hsn)]

/-- Feeding the remaining consecutive blocks of one bundle: with boundary b
established and the buffer holding the first k blocks of the bundle, the
incoming blocks numbered b + k, ..., b + 99 in order are each appended
silently, until the block numbered b + 99 triggers the single flush of the
whole bundle under the boundary filename. -/
theorem feedConsec (bs : List Block) : ∀ (w : mergedBlocksWriter) (b k : Nat),
    w.tweakBlock = none → w.stopBlockNum = 0 → w.lowBlockNum = b →
    b + 99 < U64 → w.blocks.length = k → 1 ≤ k → k ≤ 99 →
    k + bs.length = 100 →
    (∀ i (h : i < bs.length), (bs.get ⟨i, h⟩).number = b + k + i) →
    w.store (filename b) (w.blocks ++ bs) = none →
    runTrace w bs =
      (List.replicate bs.length none,
        { w with lowBlockNum := (b + 100) % U64, blocks := [] },
        [(filename b, w.blocks ++ bs)]) := by
  induction bs with
  | nil =>
    intro w b k htw hstp hlow hblt hbuf hk1 hk99 hlen hnum hst
    simp only [List.length_nil] at hlen
    omega
  | cons blk rest ih =>
    intro w b k htw hstp hlow hblt hbuf hk1 hk99 hlen hnum hst
    have hbn : blk.number = b + k := by simpa using hnum 0 (by simp)
    have hb : applyTweak w blk = Except.ok blk := by simp only [applyTweak, htw]
    have hnb : ¬ (w.lowBlockNum = 0 ∧ 99 < blk.number) := by
      rw [hlow, hbn]
      rintro ⟨h0, hg⟩
      omega
    have hnof : ¬ (w.lowBlockNum + 99 < blk.number) := by
      rw [hlow, hbn]
      omega
    have hstop2 : ¬ (0 < w.stopBlockNum ∧ w.stopBlockNum ≤ blk.number) := by
      rw [hstp]
      rintro ⟨h, _⟩
      omega
    have hmod : w.lowBlockNum + 99 < U64 := by omega
    by_cases hk : k = 99
    · -- blk is the bundle's last block: the completion flush fires
      have hrlen : rest.length = 0 := by
        simp only [List.length_cons] at hlen
        omega
      have hrest : rest = [] := List.length_eq_zero.mp hrlen
      subst hrest
      have hcompl : blk.number = w.lowBlockNum + 99 := by rw [hlow, hbn, hk]
      have hnosize : ¬ (w.checkBundleSize = true ∧
          (w.blocks ++ [blk]).length ≠ 100 ∧ 100 ≤ blk.number) := by
        rintro ⟨_, hl, _⟩
        apply hl
        simp [hbuf, hk]
      have hne : w.blocks ++ [blk] ≠ [] := by simp
      have hwb : writeBundle { w with blocks := w.blocks ++ [blk] } =
          (none, { w with lowBlockNum := (b + 100) % U64, blocks := [] },
            [(filename b, w.blocks ++ [blk])]) := by
        simp only [writeBundle, if_neg hne, hlow]
        rw [hst]
      simp only [runTrace, processBlock, hb, processBoundary, if_neg hnb,
        processOverflow, Nat.mod_eq_of_lt hmod, if_neg hnof, processStopCheck,
        if_neg hstop2, processAppend, if_pos hcompl, if_neg hnosize, hwb]
      simp
    · -- blk is appended silently; recurse
      have hk98 : k ≤ 98 := by omega
      have hnotcompl : ¬ (blk.number = w.lowBlockNum + 99) := by
        rw [hlow, hbn]
        omega
      have hpb : processBlock w blk =
          ⟨none, { w with blocks := w.blocks ++ [blk] }, [], [], []⟩ := by
        simp only [processBlock, hb, processBoundary, if_neg hnb, processOverflow,
          Nat.mod_eq_of_lt hmod, if_neg hnof, processStopCheck, if_neg hstop2,
          processAppend, if_neg hnotcompl]
      have hihnum : ∀ i (h : i < rest.length),
          (rest.get ⟨i, h⟩).number = b + (k + 1) + i := by
        intro i h
        have h2 : i + 1 < (blk :: rest).length := by
          simp only [List.length_cons]
          omega
        have h3 := hnum (i + 1) h2
        have h4 : ((blk :: rest).get ⟨i + 1, h2⟩) = rest.get ⟨i, h⟩ := rfl
        rw [h4] at h3
        omega
      have hihst : ({ w with blocks := w.blocks ++ [blk] } :
          mergedBlocksWriter).store (filename b)
            (({ w with blocks := w.blocks ++ [blk] } :
              mergedBlocksWriter).blocks ++ rest) = none := by
        show w.store (filename b) ((w.blocks ++ [blk]) ++ rest) = none
        rw [List.append_assoc, List.singleton_append]
        exact hst
      have hih := ih { w with blocks := w.blocks ++ [blk] } b (k + 1) htw hstp
        hlow hblt (by simp [hbuf]) (by omega) (by omega)
        (by simp only [List.length_cons] at hlen; omega) hihnum hihst
      simp only [runTrace, hpb, hih, List.length_cons, List.nil_append,
        List.replicate_succ, Prod.mk.injEq, List.append_assoc,
        List.singleton_append]

/-- C1: for every boundary b that is a multiple of 100, feeding a fresh
writer the 100 consecutive blocks numbered b..b+99 in order - no transform
hook, any size enforcement setting, no stop limit, the store accepting the
write - causes exactly one flush: a single store write of all 100 blocks in
input order under the ten digit zero padded filename of b, with every
ProcessBlock call returning success. -/
theorem full_bundle_single_flush (b : Nat) (bs : List Block)
    (w : mergedBlocksWriter) (htw : w.tweakBlock = none)
    (hstp : w.stopBlockNum = 0) (hlow : w.lowBlockNum = 0) (hbuf : w.blocks = [])
    (hbmod : b % 100 = 0) (hblt : b + 99 < U64) (hlen : bs.length = 100)
    (hnum : ∀ i (h : i < bs.length), (bs.get ⟨i, h⟩).number = b + i)
    (hst : w.store (filename b) bs = none) :
    (runTrace w bs).1 = List.replicate 100 none ∧
      (runTrace w bs).2.2 = [(filename b, bs)] := by
  cases bs with
  | nil => simp at hlen
  | cons blk0 rest =>
    have hb0 : blk0.number = b := by simpa using hnum 0 (by simp)
    have hb : applyTweak w blk0 = Except.ok blk0 := by simp only [applyTweak, htw]
    have hgoal : processOverflow { w with lowBlockNum := b } blk0 =
        ⟨none, { w with lowBlockNum := b, blocks := w.blocks ++ [blk0] },
          [], [], []⟩ := by
      have hnof : ¬ (b + 99 < blk0.number) := by rw [hb0]; omega
      have hnc : ¬ (blk0.number = b + 99) := by rw [hb0]; omega
      have hstop2 : ¬ (0 < w.stopBlockNum ∧ w.stopBlockNum ≤ blk0.number) := by
        rw [hstp]
        rintro ⟨h, _⟩
        omega
      simp only [processOverflow, Nat.mod_eq_of_lt hblt, if_neg hnof,
        processStopCheck, if_neg hstop2, processAppend, if_neg hnc]
    have hpb : processBlock w blk0 =
        ⟨none, { w with lowBlockNum := b, blocks := w.blocks ++ [blk0] },
          [], [], []⟩ := by
      by_cases hb100 : 99 < b
      · have hcond : w.lowBlockNum = 0 ∧ 99 < blk0.number :=
          ⟨hlow, by rw [hb0]; exact hb100⟩
        have hpass : ¬ (blk0.number % 100 ≠ 0 ∧ blk0.number ≠ w.firstStreamable) := by
          rintro ⟨h1, _⟩
          rw [hb0] at h1
          exact h1 hbmod
        have hlbv : lowBoundary blk0.number = b := by
          rw [hb0]
          simp [lowBoundary, hbmod]
        simp only [processBlock, hb, processBoundary, if_pos hcond, if_neg hpass, hlbv]
        exact hgoal
      · have hb00 : b = 0 := by omega
        subst hb00
        have hncond : ¬ (w.lowBlockNum = 0 ∧ 99 < blk0.number) := by
          rintro ⟨_, hx⟩
          rw [hb0] at hx
          omega
        simp only [processBlock, hb, processBoundary, if_neg hncond]
        rw [← hlow] at hgoal ⊢
        exact hgoal
    have hr99 : rest.length = 99 := by
      simp only [List.length_cons] at hlen
      omega
    have hfeed := feedConsec rest
      { w with lowBlockNum := b, blocks := w.blocks ++ [blk0] } b 1 htw hstp rfl
      hblt (by simp [hbuf]) (by omega) (by omega) (by omega)
      (by
        intro i h
        have h2 : i + 1 < (blk0 :: rest).length := by
          simp only [List.length_cons]
          omega
        have h3 := hnum (i + 1) h2
        have h4 : ((blk0 :: rest).get ⟨i + 1, h2⟩) = rest.get ⟨i, h⟩ := rfl
        rw [h4] at h3
        omega)
      (by
        show w.store (filename b) ((w.blocks ++ [blk0]) ++ rest) = none
        rw [hbuf]
        simpa using hst)
    simp only [runTrace, hpb, hfeed]
    constructor
    · rw [hr99]
      rfl
    · simp [hbuf]

/-- C1 witness: boundary 200, blocks 200..299 on a fresh writer with size
enforcement on: one store write of the whole bundle under "0000000200",
every call succeeding; the filename format example of the claim holds. -/
theorem full_bundle_single_flush_witness :
    (200 % 100 = 0 ∧ (blks 200 100).length = 100 ∧ filename 200 = "0000000200") ∧
      ((runTrace (mkWriter okStore 0 true 2) (blks 200 100)).1 =
          List.replicate 100 none ∧
        (runTrace (mkWriter okStore 0 true 2) (blks 200 100)).2.2 =
          [(filename 200, blks 200 100)]) :=
  ⟨⟨by decide, by decide, by decide⟩,
    full_bundle_single_flush 200 (blks 200 100) (mkWriter okStore 0 true 2) rfl rfl
      rfl rfl (by decide) (by decide) (by decide) (by decide) rfl⟩

/-- Every block in the buffer lies in the current bundle's range
[lowBlockNum, lowBlockNum + 99]. -/
def bufInvariant (w : mergedBlocksWriter) : Prop :=
  ∀ b ∈ w.blocks, w.lowBlockNum ≤ b.number ∧ b.number ≤ w.lowBlockNum + 99

/-- The per-call side condition under which the buffer range invariant is
preserved: no transform hook, numbers comfortably below the uint64 wrap,
the block not below the current boundary, gaps of at most one bundle width
once a boundary is established, and no block past 99 arriving while blocks
are accumulated at boundary zero (the initial boundary check would then
reset the boundary above the buffered blocks, or reject the block). -/
def goodStep (w : mergedBlocksWriter) (b : Block) : Prop :=
  w.tweakBlock = none ∧
  w.lowBlockNum + 199 < U64 ∧
  b.number + 199 < U64 ∧
  w.lowBlockNum ≤ b.number ∧
  (0 < w.lowBlockNum → b.number ≤ w.lowBlockNum + 199) ∧
  (w.lowBlockNum = 0 ∧ 99 < b.number → w.blocks = [])

/-- A trace each of whose calls satisfies goodStep in the state it meets. -/
def goodTrace : mergedBlocksWriter → List Block → Prop
  | _, [] => True
  | w, b :: rest => goodStep w b ∧ goodTrace (processBlock w b).state rest

/-- A writer with an empty buffer satisfies the range invariant. -/
theorem bufInvariant_empty (w : mergedBlocksWriter) (h : w.blocks = []) :
    bufInvariant w := by
  intro b hb
  rw [h] at hb
  simp at hb

/-- writeBundle preserves the range invariant (it either leaves the state
alone or empties the buffer). -/
theorem writeBundle_state_bufInvariant (w : mergedBlocksWriter)
    (h : bufInvariant w) : bufInvariant (writeBundle w).2.1 := by
  simp only [writeBundle]
  split
  · exact h
  · cases hs : w.store (filename w.lowBlockNum) w.blocks <;>
      · simp only [hs]
        exact bufInvariant_empty _ rfl

/-- The append and completion step preserves the range invariant when the
incoming block is itself in range. -/
theorem processAppend_state_bufInvariant (w : mergedBlocksWriter) (blk : Block)
    (ws : List (String × List Block)) (h : bufInvariant w)
    (hlo : w.lowBlockNum ≤ blk.number) (hhi : blk.number ≤ w.lowBlockNum + 99) :
    bufInvariant (processAppend w blk ws).state := by
  have h1 : bufInvariant { w with blocks := w.blocks ++ [blk] } := by
    intro b hb
    simp only [List.mem_append, List.mem_singleton] at hb
    rcases hb with hb | hb
    · exact h b hb
    · subst hb
      exact ⟨hlo, hhi⟩
  simp only [processAppend]
  split
  · split
    · exact h1
    · exact writeBundle_state_bufInvariant _ h1
  · exact h1

/-- The stop check step preserves the range invariant when the incoming
block is in range. -/
theorem processStopCheck_state_bufInvariant (w : mergedBlocksWriter) (blk : Block)
    (ws : List (String × List Block)) (h : bufInvariant w)
    (hlo : w.lowBlockNum ≤ blk.number) (hhi : blk.number ≤ w.lowBlockNum + 99) :
    bufInvariant (processStopCheck w blk ws).state := by
  simp only [processStopCheck]
  split
  · exact h
  · exact processAppend_state_bufInvariant w blk ws h hlo hhi

/-- The overflow step preserves the range invariant for a block at most one
bundle width beyond the established boundary. -/
theorem processOverflow_state_bufInvariant (w : mergedBlocksWriter) (blk : Block)
    (h : bufInvariant w) (hU : w.lowBlockNum + 199 < U64)
    (hlo : w.lowBlockNum ≤ blk.number)
    (hhi : 0 < w.lowBlockNum → blk.number ≤ w.lowBlockNum + 199)
    (h0 : w.lowBlockNum = 0 → blk.number ≤ 99) :
    bufInvariant (processOverflow w blk).state := by
  simp only [processOverflow, Nat.mod_eq_of_lt (by omega : w.lowBlockNum + 99 < U64)]
  split
  · next hgt =>
    have hpos : 0 < w.lowBlockNum := by
      by_contra hc
      have hz : w.lowBlockNum = 0 := by omega
      have := h0 hz
      omega
    cases hemp : w.blocks with
    | nil =>
      have hwb : writeBundle w = (some PBErr.noBlocks, w, []) := by
        simp only [writeBundle, if_pos hemp]
      rw [hwb]
      exact h
    | cons b1 bs1 =>
      have hne : w.blocks ≠ [] := by
        rw [hemp]
        simp
      cases hs : w.store (filename w.lowBlockNum) w.blocks with
      | none =>
        have hwb : writeBundle w =
            (none, { w with lowBlockNum := (w.lowBlockNum + 100) % U64, blocks := [] },
              [(filename w.lowBlockNum, w.blocks)]) := by
          simp only [writeBundle, if_neg hne, hs]
        rw [hwb]
        refine processStopCheck_state_bufInvariant _ blk _
          (bufInvariant_empty _ rfl) ?_ ?_
        · show (w.lowBlockNum + 100) % U64 ≤ blk.number
          rw [Nat.mod_eq_of_lt (by omega)]
          omega
        · show blk.number ≤ (w.lowBlockNum + 100) % U64 + 99
          rw [Nat.mod_eq_of_lt (by omega)]
          have := hhi hpos
          omega
      | some e =>
        have hwb : writeBundle w =
            (some (PBErr.storeError e),
              { w with lowBlockNum := (w.lowBlockNum + 100) % U64, blocks := [] },
              [(filename w.lowBlockNum, w.blocks)]) := by
          simp only [writeBundle, if_neg hne, hs]
        rw [hwb]
        exact bufInvariant_empty _ rfl
  · next hle =>
    exact processStopCheck_state_bufInvariant w blk [] h hlo (by omega)

/-- One ProcessBlock call preserves the range invariant under goodStep. -/
theorem processBlock_state_bufInvariant (w : mergedBlocksWriter) (blk : Block)
    (h : bufInvariant w) (hg : goodStep w blk) :
    bufInvariant (processBlock w blk).state := by
  obtain ⟨htw, hU, hbU, hlo, hhi, h0⟩ := hg
  have hb : applyTweak w blk = Except.ok blk := by simp only [applyTweak, htw]
  simp only [processBlock, hb, processBoundary]
  split
  · next hcond =>
    have hemp : w.blocks = [] := h0 hcond
    split
    · exact h
    · refine processOverflow_state_bufInvariant _ blk
        (bufInvariant_empty _ hemp) ?_ ?_ ?_ ?_
      · show lowBoundary blk.number + 199 < U64
        show blk.number - blk.number % 100 + 199 < U64
        omega
      · show lowBoundary blk.number ≤ blk.number
        exact Nat.sub_le _ _
      · intro _
        show blk.number ≤ lowBoundary blk.number + 199
        show blk.number ≤ blk.number - blk.number % 100 + 199
        omega
      · intro hz
        have hz2 : blk.number - blk.number % 100 = 0 := hz
        omega
  · next hcond =>
    refine processOverflow_state_bufInvariant w blk h hU hlo hhi ?_
    intro hz
    by_contra hc
    exact hcond ⟨hz, by omega⟩

/-- The range invariant holds after any good trace from an invariant
state. -/
theorem runTrace_bufInvariant (bs : List Block) : ∀ (w : mergedBlocksWriter),
    bufInvariant w → goodTrace w bs → bufInvariant (runTrace w bs).2.1 := by
  induction bs with
  | nil =>
    intro w h _
    exact h
  | cons b rest ih =>
    intro w h hg
    obtain ⟨h1, h2⟩ := hg
    simp only [runTrace]
    exact ih _ (processBlock_state_bufInvariant w b h h1) h2

/-- C4 (amended): starting from an empty buffer, after any sequence of
ProcessBlock calls in each of which the incoming block's number is at least
the current lowBlockNum, exceeds it by at most 199 once a boundary is
established, does not arrive past 99 over a non-empty boundary-zero buffer,
and stays clear of the uint64 wrap (no transform hook), every block held in
the buffer has its number in [lowBlockNum, lowBlockNum + 99] at the end of
every call.  (Without the one-bundle-gap restriction the invariant fails:
see the counterexample.) -/
theorem buffer_range_invariant (w : mergedBlocksWriter) (bs : List Block)
    (hemp : w.blocks = []) (hg : goodTrace w bs) :
    bufInvariant (runTrace w bs).2.1 :=
  runTrace_bufInvariant bs w (bufInvariant_empty w hemp) hg

/-- C4 counterexample: feeding a fresh writer block 100 and then block 350
(a gap of more than one bundle width) ends with the writer at boundary 200
holding block 350, which is outside [200, 299]: the invariant as claimed
fails in a state reached by ProcessBlock calls. -/
theorem buffer_range_invariant_counterexample :
    (runTrace (mkWriter okStore 0 false 2)
        [⟨100, "100"⟩, ⟨350, "350"⟩]).2.1.lowBlockNum = 200 ∧
      (⟨350, "350"⟩ : Block) ∈
        (runTrace (mkWriter okStore 0 false 2)
          [⟨100, "100"⟩, ⟨350, "350"⟩]).2.1.blocks ∧
      ¬ bufInvariant
          (runTrace (mkWriter okStore 0 false 2)
            [⟨100, "100"⟩, ⟨350, "350"⟩]).2.1 := by
  have h1 : (runTrace (mkWriter okStore 0 false 2)
      [⟨100, "100"⟩, ⟨350, "350"⟩]).2.1.lowBlockNum = 200 := by decide
  have h2 : (⟨350, "350"⟩ : Block) ∈
      (runTrace (mkWriter okStore 0 false 2)
        [⟨100, "100"⟩, ⟨350, "350"⟩]).2.1.blocks := by decide
  refine ⟨h1, h2, fun h => ?_⟩
  have h3 := h _ h2
  rw [h1] at h3
  exact absurd h3 (by decide)

/-- C4 witness: blocks 100, 150, 250 form a good trace (the gap at 250 spans
one bundle width) and the final state satisfies the range invariant. -/
theorem buffer_range_invariant_witness :
    goodTrace (mkWriter okStore 0 false 2) [⟨100, "100"⟩, ⟨150, "150"⟩, ⟨250, "250"⟩] ∧
      bufInvariant
        (runTrace (mkWriter okStore 0 false 2)
          [⟨100, "100"⟩, ⟨150, "150"⟩, ⟨250, "250"⟩]).2.1 := by
  have hg : goodTrace (mkWriter okStore 0 false 2)
      [⟨100, "100"⟩, ⟨150, "150"⟩, ⟨250, "250"⟩] :=
    ⟨⟨rfl, by decide, by decide, by decide, by decide, by decide⟩,
      ⟨rfl, by decide, by decide, by decide, by decide, by decide⟩,
      ⟨rfl, by decide, by decide, by decide, by decide, by decide⟩, trivial⟩
  exact ⟨hg, buffer_range_invariant (mkWriter okStore 0 false 2) _ rfl hg⟩

/-- A writer that has just flushed bundle [200, 299] under stop limit 300. -/
def wAtStop300 : mergedBlocksWriter :=
  { mkWriter okStore 300 false 2 with lowBlockNum := 300 }

/-- A writer at boundary 100 holding blocks 100..149, with stop limit
300: feeding it a block past the stop limit makes an overflow flush due
before the stop check. -/
def wOverflowStop : mergedBlocksWriter :=
  { mkWriter okStore 300 false 2 with lowBlockNum := 100, blocks := blks 100 50 }

/-- C7 witness, both reachable shapes: block 300 on the just-flushed writer
(no overflow due) yields io.EOF with nothing appended and nothing written;
and block 350 on the boundary-100 writer holding 100..149 first flushes
exactly those buffered blocks (one store write, boundary advanced to 200,
buffer emptied) and still ends in io.EOF, block 350 neither appended nor
written. -/
theorem stop_limit_returns_eof_witness :
    ((0 < wAtStop300.stopBlockNum ∧ wAtStop300.stopBlockNum ≤ 300) ∧
      processBlock wAtStop300 ⟨300, "300"⟩ =
        ⟨some PBErr.eof, wAtStop300, [], [], []⟩) ∧
    ((wOverflowStop.lowBlockNum + 99 < 350 ∧ wOverflowStop.blocks ≠ []) ∧
      processBlock wOverflowStop ⟨350, "350"⟩ =
        ⟨some PBErr.eof,
          { wOverflowStop with
              lowBlockNum := (wOverflowStop.lowBlockNum + 100) % U64, blocks := [] },
          [(filename wOverflowStop.lowBlockNum, wOverflowStop.blocks)], [], []⟩) :=
  ⟨⟨⟨by decide, by decide⟩,
      stop_limit_returns_eof.1 wAtStop300 ⟨300, "300"⟩ rfl (by decide) (by decide)
        (by decide) (by decide) (by decide)⟩,
    ⟨⟨by decide, by decide⟩,
      stop_limit_returns_eof.2.2.1 wOverflowStop ⟨350, "350"⟩ rfl (by decide)
        (by decide) (by decide) (by decide) (by decide) (by decide) rfl⟩⟩
